import Mathlib

/-!
Verification of the streaming chat consumer (`sendMessage` in
`frontend/src/components/ChatInterface.tsx`, streaming variant) of the
trip_planner repository.

Texts are modelled as `List Char` (JS strings).  The component state
(`messages`, `input`, `sessionId`, `isLoading`) is a `Store` record; the
network is a `Transport` value carrying the decoded text of each
successive `reader.read()` result.  `JSON.parse` on one framed line is
modelled by `parseData`, a small JSON-object parser covering the protocol
value shapes (strings, booleans, null).
-/

namespace TripPlanner

/-- JS strings are modelled as lists of characters. -/
abbrev Str := List Char

/-- Literal helper: a Lean string literal as a `Str`. -/
def strL (s : String) : Str := s.data

/-- `Message.role` in ChatInterface.tsx. -/
inductive Role where
  | user
  | assistant
deriving DecidableEq, Repr

/-- One conversation message (`interface Message` in ChatInterface.tsx). -/
structure Message where
  role : Role
  content : Str
deriving DecidableEq, Repr

/-- The object produced by `JSON.parse(line.slice(6))`: the fields the
consumer reads (`data.error`, `data.done`, `data.chunk`,
`data.session_id`); `none` models an absent field. -/
structure EventData where
  error : Option Str := none
  done : Option Bool := none
  chunk : Option Str := none
  session_id : Option Str := none
deriving DecidableEq, Repr

/-- A parsed JSON value of the shapes the protocol uses. -/
inductive JVal where
  | str (s : Str)
  | bool (b : Bool)
  | null
deriving DecidableEq, Repr

/-- JS truthiness of a possibly-absent string field: an absent field and
the empty string are falsy. -/
def truthyStr : Option Str → Bool
  | some s => !s.isEmpty
  | none => false

/-- JS truthiness of a possibly-absent boolean field. -/
def truthyBool : Option Bool → Bool
  | some b => b
  | none => false

/-- JSON / JS whitespace characters relevant here. -/
def isJsWs (c : Char) : Bool :=
  c = ' ' || c = '\t' || c = '\n' || c = '\r'

/-- Skip leading whitespace (used by the JSON parser). -/
def skipWs : Str → Str
  | [] => []
  | c :: s => if isJsWs c then skipWs s else c :: s

/-- JS `String.prototype.trim`. -/
def jsTrim (s : Str) : Str :=
  ((s.dropWhile isJsWs).reverse.dropWhile isJsWs).reverse

/-- Decoding of a JSON string escape character. -/
def unescChar : Char → Option Char
  | 'n' => some '\n'
  | '"' => some '"'
  | 't' => some '\t'
  | '\\' => some '\\'
  | 'r' => some '\r'
  | '/' => some '/'
  | 'b' => some (Char.ofNat 8)
  | 'f' => some (Char.ofNat 12)
  | _ => none

/-- Parse the body of a JSON string (the part after the opening quote);
returns the decoded content and the remainder after the closing quote. -/
def pString : Str → Option (Str × Str)
  | [] => none
  | c :: rest =>
    if c = '"' then some ([], rest)
    else if c = '\\' then
      match rest with
      | [] => none
      | e :: rest2 =>
        match unescChar e, pString rest2 with
        | some c2, some (s, r) => some (c2 :: s, r)
        | _, _ => none
    else
      match pString rest with
      | some (s, r) => some (c :: s, r)
      | none => none

/-- Parse one JSON value of the shapes used by the protocol. -/
def pValue (s : Str) : Option (JVal × Str) :=
  match s with
  | [] => none
  | c :: rest =>
    if c = '"' then (pString rest).map fun p => (JVal.str p.1, p.2)
    else if (strL "true").isPrefixOf s then some (JVal.bool true, s.drop 4)
    else if (strL "false").isPrefixOf s then some (JVal.bool false, s.drop 5)
    else if (strL "null").isPrefixOf s then some (JVal.null, s.drop 4)
    else none

/-- Record a parsed member into the `EventData` fields the consumer
reads; members with other keys are retained by `JSON.parse` but never
inspected by the consumer, so they are dropped here. -/
def setField (d : EventData) (key : Str) (v : JVal) : EventData :=
  if key = strL "error" then
    match v with
    | JVal.str s => { d with error := some s }
    | _ => d
  else if key = strL "done" then
    match v with
    | JVal.bool b => { d with done := some b }
    | _ => d
  else if key = strL "chunk" then
    match v with
    | JVal.str s => { d with chunk := some s }
    | _ => d
  else if key = strL "session_id" then
    match v with
    | JVal.str s => { d with session_id := some s }
    | _ => d
  else d

/-- Parse the members of a JSON object (after the opening brace), fueled
by the input length. -/
def pMembers : Nat → EventData → Str → Option EventData
  | 0, _, _ => none
  | fuel + 1, d, s =>
    match skipWs s with
    | [] => none
    | c :: rest =>
      if c = '"' then
        match pString rest with
        | none => none
        | some (key, r1) =>
          match skipWs r1 with
          | [] => none
          | c1 :: r2 =>
            if c1 = ':' then
              match pValue (skipWs r2) with
              | none => none
              | some (v, r3) =>
                match skipWs r3 with
                | [] => none
                | c2 :: r4 =>
                  if c2 = ',' then pMembers fuel (setField d key v) r4
                  else if c2 = '}' then
                    if skipWs r4 = [] then some (setField d key v) else none
                  else none
            else none
      else none

/-- `JSON.parse` on one framed event payload, restricted to the object
shapes of the protocol; `none` models a thrown `SyntaxError`. -/
def parseData (s : Str) : Option EventData :=
  match skipWs s with
  | [] => none
  | c :: rest =>
    if c = '{' then
      match skipWs rest with
      | [] => pMembers (s.length + 1) {} rest
      | c1 :: r =>
        if c1 = '}' then (if skipWs r = [] then some {} else none)
        else pMembers (s.length + 1) {} rest
    else none

/-- JS `chunk.split('\n')`. -/
def splitNl : Str → List Str
  | [] => [[]]
  | c :: cs =>
    if c = '\n' then [] :: splitNl cs
    else
      match splitNl cs with
      | [] => [[c]]
      | l :: ls => (c :: l) :: ls

/-- `prev.map((msg, idx) => idx === i ? { ...msg, content } : msg)`. -/
def updateContent (i : Nat) (content : Str) (msgs : List Message) : List Message :=
  msgs.mapIdx fun idx m => if idx = i then { m with content := content } else m

/-- The mutable state live during the decode loop: the store fields the
loop touches plus `accumulatedContent`; `trace` is a ghost field
recording every successive value the message list takes (one snapshot
per `setMessages` call). -/
structure LoopSt where
  messages : List Message
  sessionId : Option Str
  acc : Str
  trace : List (List Message)
deriving DecidableEq, Repr

/-- Outcome of processing one line of a read. -/
inductive LineOut where
  | cont (st : LoopSt)
  | brk (st : LoopSt)
  | thrown (st : LoopSt)
deriving DecidableEq, Repr

/-- Outcome of the `for (const line of lines)` loop over one read. -/
inductive ForOut where
  | ran (st : LoopSt)
  | broke (st : LoopSt)
  | thrown (st : LoopSt)
deriving DecidableEq, Repr

/-- Outcome of the `while (true)` read loop. -/
inductive RunOut where
  | finished (st : LoopSt)
  | thrown (st : LoopSt)
deriving DecidableEq, Repr

/-- The fixed event-line tag. -/
def dataPre : Str := strL "data: "

/-- The body of the `for` loop: dispatch on one line.  Mirrors the
source: skip lines without the tag; `JSON.parse` failure and a truthy
`data.error` throw; a truthy `data.done` records the session id and
breaks; a truthy `data.chunk` extends the accumulator, rewrites the
target message and records the session id. -/
def processLine (tgt : Nat) (st : LoopSt) (line : Str) : LineOut :=
  if dataPre.isPrefixOf line then
    match parseData (line.drop 6) with
    | none => LineOut.thrown st
    | some d =>
      if truthyStr d.error then LineOut.thrown st
      else if truthyBool d.done then LineOut.brk { st with sessionId := d.session_id }
      else if truthyStr d.chunk then
        let acc2 := st.acc ++ d.chunk.getD []
        let msgs2 := updateContent tgt acc2 st.messages
        LineOut.cont { messages := msgs2, sessionId := d.session_id, acc := acc2,
                       trace := st.trace ++ [msgs2] }
      else LineOut.cont st
  else LineOut.cont st

/-- The `for (const line of lines)` loop with `break` semantics. -/
def processLines (tgt : Nat) (st : LoopSt) : List Str → ForOut
  | [] => ForOut.ran st
  | l :: ls =>
    match processLine tgt st l with
    | LineOut.cont st2 => processLines tgt st2 ls
    | LineOut.brk st2 => ForOut.broke st2
    | LineOut.thrown st2 => ForOut.thrown st2

/-- The `while (true)` loop over reads.  `break` in the inner `for` loop
only ends that loop, so a `broke` outcome continues with the remaining
reads exactly as `ran` does. -/
def runReads (tgt : Nat) (st : LoopSt) : List Str → RunOut
  | [] => RunOut.finished st
  | r :: rs =>
    match processLines tgt st (splitNl r) with
    | ForOut.ran st2 => runReads tgt st2 rs
    | ForOut.broke st2 => runReads tgt st2 rs
    | ForOut.thrown st2 => RunOut.thrown st2

/-- The component state: `messages`, `input`, `sessionId`, `isLoading`. -/
structure Store where
  messages : List Message
  input : Str
  sessionId : Option Str
  isLoading : Bool
deriving DecidableEq, Repr

/-- The network as observed by one exchange: the fetch promise rejects,
or a response arrives with its `ok` flag and (unless the body is null)
the decoded text of each successive read. -/
inductive Transport where
  | netfail
  | resp (ok : Bool) (body : Option (List Str))
deriving DecidableEq, Repr

/-- The fixed user-facing failure text. -/
def apology : Str := strL "Sorry, I encountered an error. Please try again."

/-- Result of one `sendMessage` invocation: the final store, a ghost
trace of every successive value of the message list (starting with the
initial one), and the number of network requests issued. -/
structure ExchangeResult where
  store : Store
  msgTrace : List (List Message)
  requests : Nat
deriving DecidableEq, Repr

/-- The user message appended on submission (`input.trim()`). -/
def userMsg (st : Store) : Message := { role := Role.user, content := jsTrim st.input }

/-- `assistantMessageIndex = messages.length + 1` (computed from the
message list as it was before the user message was appended). -/
def tgtIdx (st : Store) : Nat := st.messages.length + 1

/-- Loop state at the start of the decode loop: the user message and the
empty assistant placeholder have been appended, `accumulatedContent` is
empty; the ghost trace records the three message-list values so far. -/
def initLoop (st : Store) : LoopSt :=
  let m1 := st.messages ++ [userMsg st]
  let m2 := m1 ++ [{ role := Role.assistant, content := [] }]
  { messages := m2, sessionId := st.sessionId, acc := [],
    trace := [st.messages, m1, m2] }

/-- `sendMessage`, with ghost outputs.  Guard: `!input.trim() ||
isLoading` is a no-op.  Otherwise the draft is cleared, the flag set,
the two messages appended, the request issued, and the decode loop run;
the `catch` block rewrites the target message with `apology`; the
`finally` block clears the flag on every path. -/
def sendMessageT (st : Store) (t : Transport) : ExchangeResult :=
  if (jsTrim st.input).isEmpty || st.isLoading then
    { store := st, msgTrace := [st.messages], requests := 0 }
  else
    let tgt := tgtIdx st
    let l0 := initLoop st
    let finish : LoopSt → Bool → ExchangeResult := fun l failed =>
      if failed then
        let msgs2 := updateContent tgt apology l.messages
        { store := { messages := msgs2, input := [], sessionId := l.sessionId,
                     isLoading := false },
          msgTrace := l.trace ++ [msgs2], requests := 1 }
      else
        { store := { messages := l.messages, input := [], sessionId := l.sessionId,
                     isLoading := false },
          msgTrace := l.trace, requests := 1 }
    match t with
    | Transport.netfail => finish l0 true
    | Transport.resp ok body =>
      if ok then
        match body with
        | none => finish l0 true
        | some reads =>
          match runReads tgt l0 reads with
          | RunOut.finished l => finish l false
          | RunOut.thrown l => finish l true
      else finish l0 true

/-- The store after one `sendMessage` invocation. -/
def sendMessage (st : Store) (t : Transport) : Store := (sendMessageT st t).store

/-- Modelled from the spec: the backend (not part of the sources under
review) serialises event payload strings as JSON string literals; the
escaping relevant to framing is that quote, backslash and newline never
appear raw inside an encoded line. -/
def escape : Str → Str
  | [] => []
  | c :: cs =>
    if c = '\\' then '\\' :: '\\' :: escape cs
    else if c = '"' then '\\' :: '"' :: escape cs
    else if c = '\n' then '\\' :: 'n' :: escape cs
    else c :: escape cs

/-- A JSON string literal: quote, escaped content, quote. -/
def jstr (s : Str) : Str := '"' :: (escape s ++ ['"'])

/-- Modelled from the spec: an incremental-content event payload,
`\x7b"chunk": "<text>", "session_id": "<id>"\x7d`. -/
def encChunk (text sid : Str) : Str :=
  '{' :: (jstr (strL "chunk") ++ ':' :: ' ' :: (jstr text ++ ',' :: ' ' ::
    (jstr (strL "session_id") ++ ':' :: ' ' :: (jstr sid ++ ['}']))))

/-- Modelled from the spec: a terminal-success event payload,
`\x7b"done": true, "session_id": "<id>"\x7d`. -/
def encDone (sid : Str) : Str :=
  '{' :: (jstr (strL "done") ++ ':' :: ' ' :: (strL "true" ++ ',' :: ' ' ::
    (jstr (strL "session_id") ++ ':' :: ' ' :: (jstr sid ++ ['}']))))

/-- Modelled from the spec: a terminal-failure event payload,
`\x7b"error": "<message>"\x7d`. -/
def encError (msg : Str) : Str :=
  '{' :: (jstr (strL "error") ++ ':' :: ' ' :: (jstr msg ++ ['}']))

/-- Modelled from the spec: the three increment shapes of the stream
protocol, at the semantic level. -/
inductive Event where
  | chunk (text sid : Str)
  | done (sid : Str)
  | error (msg : Str)
deriving DecidableEq, Repr

/-- The framed line for one event, without its terminating newline. -/
def lineBody : Event → Str
  | Event.chunk text sid => dataPre ++ encChunk text sid
  | Event.done sid => dataPre ++ encDone sid
  | Event.error msg => dataPre ++ encError msg

/-- Modelled from the spec: one event per line, tag-prefixed,
newline-terminated. -/
def encEvent (e : Event) : Str := lineBody e ++ ['\n']

/-- The response-body text carrying a group of events. -/
def readOf (g : List Event) : Str := (g.map encEvent).flatten

/-- The chunk events for a list of (text, session id) pairs. -/
def chunkEvs (cs : List (Str × Str)) : List Event :=
  cs.map fun p => Event.chunk p.1 p.2

/-- Semantic effect of one chunk event line on the loop state (a falsy,
i.e. empty, chunk is a no-op). -/
def chunkStep (tgt : Nat) (st : LoopSt) (text sid : Str) : LoopSt :=
  if text.isEmpty then st
  else
    let acc2 := st.acc ++ text
    let msgs2 := updateContent tgt acc2 st.messages
    { messages := msgs2, sessionId := some sid, acc := acc2,
      trace := st.trace ++ [msgs2] }

/-- Semantic effect of a sequence of chunk events. -/
def foldChunks (tgt : Nat) (st : LoopSt) (cs : List (Str × Str)) : LoopSt :=
  cs.foldl (fun s p => chunkStep tgt s p.1 p.2) st

/-- The loop state carried by a `ForOut`. -/
def ForOut.toSt : ForOut → LoopSt
  | ForOut.ran st => st
  | ForOut.broke st => st
  | ForOut.thrown st => st

/-- The loop state carried by a `LineOut`. -/
def LineOut.toSt : LineOut → LoopSt
  | LineOut.cont st => st
  | LineOut.brk st => st
  | LineOut.thrown st => st

/-- The loop state carried by a `RunOut`. -/
def RunOut.toSt : RunOut → LoopSt
  | RunOut.finished st => st
  | RunOut.thrown st => st

/-- The loop state after a list of reads, `none` if one of them threw;
used to name the state at an intermediate point of the read loop. -/
def runReadsPartial (tgt : Nat) (st : LoopSt) : List Str → Option LoopSt
  | [] => some st
  | r :: rs =>
    match processLines tgt st (splitNl r) with
    | ForOut.ran st2 => runReadsPartial tgt st2 rs
    | ForOut.broke st2 => runReadsPartial tgt st2 rs
    | ForOut.thrown _ => none

/-- One admissible store mutation: append one message at the end, or
replace the content of exactly one existing message (a `List.set` with
the old role), which preserves length, order, and all other entries. -/
def MutOk (l l2 : List Message) : Prop :=
  (∃ m, l2 = l ++ [m]) ∨
    ∃ (i : Fin l.length) (c : Str), l2 = l.set i { l.get i with content := c }

/-- Invariant of the ghost message-list trace: it starts at the
pre-exchange message list, its last entry is the current message list,
successive entries are related by `MutOk`, and the target index is in
bounds. -/
def TraceOk (tgt : Nat) (ms0 : List Message) (st : LoopSt) : Prop :=
  st.trace.head? = some ms0 ∧ st.trace.getLast? = some st.messages ∧
    List.Chain' MutOk st.trace ∧ tgt < st.messages.length

/-- The stored session identifier after dispatching one parsed
increment, as a function of the previous value and the increment. -/
def sidAfter (old : Option Str) (d : EventData) : Option Str :=
  if truthyStr d.error then old
  else if truthyBool d.done then d.session_id
  else if truthyStr d.chunk then d.session_id
  else old

/-- A concrete pre-exchange store used in concrete evaluations: no
messages yet, draft text `hi`, no session identifier, not busy. -/
def demoStore : Store :=
  { messages := [], input := strL "hi", sessionId := none, isLoading := false }



/-! ## Supporting lemmas -/

theorem skipWs_cons_not (c : Char) (s : Str) (h : isJsWs c = false) :
    skipWs (c :: s) = c :: s := by
  simp [skipWs, h]

theorem skipWs_space (x : Str) : skipWs (' ' :: x) = skipWs x := by
  simp [skipWs, isJsWs]

theorem skipWs_nil : skipWs [] = [] := rfl

theorem jstr_append (s x : Str) : jstr s ++ x = '"' :: (escape s ++ '"' :: x) := by
  simp [jstr]

theorem pString_quote (rest : Str) : pString ('"' :: rest) = some ([], rest) := by
  cases rest with
  | nil => rw [pString]; rw [if_pos rfl]
  | cons e r2 => rw [pString]; rw [if_pos rfl]

theorem pString_esc (e : Char) (rest : Str) :
    pString ('\\' :: e :: rest)
      = (match unescChar e, pString rest with
         | some c2, some (s, r) => some (c2 :: s, r)
         | _, _ => none) := by
  rw [pString]
  rw [if_neg (by decide), if_pos rfl]

theorem pString_other (c : Char) (rest : Str) (h1 : c ≠ '"') (h2 : c ≠ '\\') :
    pString (c :: rest)
      = (match pString rest with
         | some (s, r) => some (c :: s, r)
         | none => none) := by
  cases rest with
  | nil =>
    conv_lhs => rw [pString]
    rw [if_neg h1, if_neg h2]
  | cons e r2 =>
    conv_lhs => rw [pString]
    rw [if_neg h1, if_neg h2]

theorem pString_escape (s rest : Str) : pString (escape s ++ '"' :: rest) = some (s, rest) := by
  induction s with
  | nil =>
    rw [show escape [] ++ '"' :: rest = '"' :: rest by simp [escape]]
    exact pString_quote rest
  | cons c cs ih =>
    by_cases h1 : c = '\\'
    · subst h1
      rw [show escape ('\\' :: cs) ++ '"' :: rest = '\\' :: '\\' :: (escape cs ++ '"' :: rest) by
        simp [escape]]
      rw [pString_esc]
      simp [unescChar, ih]
    · by_cases h2 : c = '"'
      · subst h2
        rw [show escape ('"' :: cs) ++ '"' :: rest = '\\' :: '"' :: (escape cs ++ '"' :: rest) by
          simp [escape]]
        rw [pString_esc]
        simp [unescChar, ih]
      · by_cases h3 : c = '\n'
        · subst h3
          rw [show escape ('\n' :: cs) ++ '"' :: rest = '\\' :: 'n' :: (escape cs ++ '"' :: rest) by
            simp [escape]]
          rw [pString_esc]
          simp [unescChar, ih]
        · rw [show escape (c :: cs) ++ '"' :: rest = c :: (escape cs ++ '"' :: rest) by
            simp [escape, h1, h2, h3]]
          rw [pString_other c _ h2 h1]
          simp [ih]

theorem pValue_jstr (s rest : Str) : pValue (jstr s ++ rest) = some (JVal.str s, rest) := by
  rw [jstr_append]
  rw [pValue]
  rw [if_pos rfl, pString_escape]
  rfl

theorem pValue_true (rest : Str) :
    pValue ('t' :: 'r' :: 'u' :: 'e' :: rest) = some (JVal.bool true, rest) := by
  rw [pValue]
  rw [if_neg (by decide)]
  rw [if_pos (show List.isPrefixOf (strL "true") ('t' :: 'r' :: 'u' :: 'e' :: rest) = true from
    List.isPrefixOf_iff_prefix.mpr ⟨rest, rfl⟩)]
  simp

theorem setField_error (d : EventData) (s : Str) :
    setField d (strL "error") (JVal.str s) = { d with error := some s } := by
  unfold setField
  rw [if_pos rfl]

theorem setField_done_true (d : EventData) :
    setField d (strL "done") (JVal.bool true) = { d with done := some true } := by
  unfold setField
  rw [if_neg (by decide), if_pos rfl]

theorem setField_chunk (d : EventData) (s : Str) :
    setField d (strL "chunk") (JVal.str s) = { d with chunk := some s } := by
  unfold setField
  rw [if_neg (by decide), if_neg (by decide), if_pos rfl]

theorem setField_sid (d : EventData) (s : Str) :
    setField d (strL "session_id") (JVal.str s) = { d with session_id := some s } := by
  unfold setField
  rw [if_neg (by decide), if_neg (by decide), if_neg (by decide), if_pos rfl]

theorem pMembers_mono : ∀ {fuel fuel2 : Nat} {d : EventData} {s : Str} {r : EventData},
    pMembers fuel d s = some r → fuel ≤ fuel2 → pMembers fuel2 d s = some r := by
  intro fuel
  induction fuel with
  | zero =>
    intro fuel2 d s r h _
    rw [pMembers] at h
    cases h
  | succ n ih =>
    intro fuel2 d s r h hle
    obtain ⟨m, rfl⟩ : ∃ m, fuel2 = m + 1 := ⟨fuel2 - 1, by omega⟩
    have hnm : n ≤ m := by omega
    rw [pMembers] at h ⊢
    cases hs : skipWs s with
    | nil => simp [hs] at h
    | cons c rest =>
      simp only [hs] at h ⊢
      by_cases hc : c = '"'
      · simp only [if_pos hc] at h ⊢
        cases hps : pString rest with
        | none => simp [hps] at h
        | some kr =>
          simp only [hps] at h ⊢
          obtain ⟨key, r1⟩ := kr
          cases hs1 : skipWs r1 with
          | nil => simp [hs1] at h
          | cons c1 r2 =>
            simp only [hs1] at h ⊢
            by_cases hc1 : c1 = ':'
            · simp only [if_pos hc1] at h ⊢
              cases hpv : pValue (skipWs r2) with
              | none => simp [hpv] at h
              | some vr =>
                simp only [hpv] at h ⊢
                obtain ⟨v, r3⟩ := vr
                cases hs3 : skipWs r3 with
                | nil => simp [hs3] at h
                | cons c2 r4 =>
                  simp only [hs3] at h ⊢
                  by_cases hc2 : c2 = ','
                  · simp only [if_pos hc2] at h ⊢
                    exact ih h hnm
                  · simp only [if_neg hc2] at h ⊢
                    exact h
            · simp [if_neg hc1] at h
      · simp [if_neg hc] at h

theorem pMembers_strM_cons (fuel : Nat) (d : EventData) (k s rest : Str) :
    pMembers (fuel + 1) d (jstr k ++ ':' :: ' ' :: (jstr s ++ ',' :: ' ' :: rest))
      = pMembers fuel (setField d k (JVal.str s)) (' ' :: rest) := by
  rw [jstr_append]
  rw [pMembers]
  rw [skipWs_cons_not _ _ (by decide)]
  simp only [if_pos rfl]
  rw [pString_escape]
  simp only []
  rw [skipWs_cons_not _ _ (by decide)]
  simp only [if_pos rfl]
  rw [skipWs_space]
  rw [show skipWs (jstr s ++ ',' :: ' ' :: rest)
      = '"' :: (escape s ++ '"' :: (',' :: ' ' :: rest)) by
    rw [jstr_append]; exact skipWs_cons_not _ _ (by decide)]
  rw [show pValue ('"' :: (escape s ++ '"' :: (',' :: ' ' :: rest)))
      = some (JVal.str s, ',' :: ' ' :: rest) by
    rw [show ('"' :: (escape s ++ '"' :: (',' :: ' ' :: rest)) : Str)
        = jstr s ++ ',' :: ' ' :: rest by rw [jstr_append]]
    exact pValue_jstr s _]
  simp only []
  rw [skipWs_cons_not _ _ (by decide)]
  simp

theorem pMembers_strM_last (fuel : Nat) (d : EventData) (k s : Str) :
    pMembers (fuel + 1) d (jstr k ++ ':' :: ' ' :: (jstr s ++ ['}']))
      = some (setField d k (JVal.str s)) := by
  rw [jstr_append]
  rw [pMembers]
  rw [skipWs_cons_not _ _ (by decide)]
  simp only [if_pos rfl]
  rw [pString_escape]
  simp only []
  rw [skipWs_cons_not _ _ (by decide)]
  simp only [if_pos rfl]
  rw [skipWs_space]
  rw [show skipWs (jstr s ++ ['}']) = '"' :: (escape s ++ '"' :: ['}']) by
    rw [jstr_append]; exact skipWs_cons_not _ _ (by decide)]
  rw [show pValue ('"' :: (escape s ++ '"' :: ['}'])) = some (JVal.str s, ['}']) by
    rw [show ('"' :: (escape s ++ '"' :: ['}']) : Str) = jstr s ++ ['}'] by rw [jstr_append]]
    exact pValue_jstr s _]
  simp only []
  rw [skipWs_cons_not _ _ (by decide)]
  simp +decide [skipWs_nil]

theorem pMembers_space (fuel : Nat) (d : EventData) (x : Str) :
    pMembers (fuel + 1) d (' ' :: x) = pMembers (fuel + 1) d x := by
  rw [pMembers]
  conv_rhs => rw [pMembers]
  rw [skipWs_space]

theorem pMembers_trueM_cons (fuel : Nat) (d : EventData) (k rest : Str) :
    pMembers (fuel + 1) d (jstr k ++ ':' :: ' ' :: ('t' :: 'r' :: 'u' :: 'e' :: ',' :: ' ' :: rest))
      = pMembers fuel (setField d k (JVal.bool true)) (' ' :: rest) := by
  rw [jstr_append]
  rw [pMembers]
  rw [skipWs_cons_not _ _ (by decide)]
  simp only [if_pos rfl]
  rw [pString_escape]
  simp only []
  rw [skipWs_cons_not _ _ (by decide)]
  simp only [if_pos rfl]
  rw [skipWs_space]
  rw [skipWs_cons_not _ _ (by decide)]
  rw [pValue_true]
  simp only []
  rw [skipWs_cons_not _ _ (by decide)]
  simp

theorem parseData_encChunk (text sid : Str) :
    parseData (encChunk text sid)
      = some { chunk := some text, session_id := some sid } := by
  have hbody : pMembers 2 ({} : EventData)
      (jstr (strL "chunk") ++ ':' :: ' ' :: (jstr text ++ ',' :: ' ' ::
        (jstr (strL "session_id") ++ ':' :: ' ' :: (jstr sid ++ ['}']))))
      = some { chunk := some text, session_id := some sid } := by
    rw [show (2 : Nat) = 1 + 1 from rfl]
    rw [pMembers_strM_cons]
    rw [setField_chunk]
    rw [show (1 : Nat) = 0 + 1 from rfl]
    rw [pMembers_space]
    rw [pMembers_strM_last]
    rw [setField_sid]
  rw [parseData]
  rw [encChunk]
  rw [skipWs_cons_not _ _ (by decide)]
  simp only [if_pos rfl]
  rw [show skipWs (jstr (strL "chunk") ++ ':' :: ' ' :: (jstr text ++ ',' :: ' ' ::
        (jstr (strL "session_id") ++ ':' :: ' ' :: (jstr sid ++ ['}']))))
      = '"' :: (escape (strL "chunk") ++ '"' :: (':' :: ' ' :: (jstr text ++ ',' :: ' ' ::
        (jstr (strL "session_id") ++ ':' :: ' ' :: (jstr sid ++ ['}']))))) by
    rw [jstr_append]; exact skipWs_cons_not _ _ (by decide)]
  simp +decide only [if_true, if_false]
  exact pMembers_mono hbody (by simp only [List.length_cons]; omega)

theorem parseData_encDone (sid : Str) :
    parseData (encDone sid) = some { done := some true, session_id := some sid } := by
  have hbody : pMembers 2 ({} : EventData)
      (jstr (strL "done") ++ ':' :: ' ' :: ('t' :: 'r' :: 'u' :: 'e' :: ',' :: ' ' ::
        (jstr (strL "session_id") ++ ':' :: ' ' :: (jstr sid ++ ['}']))))
      = some { done := some true, session_id := some sid } := by
    rw [show (2 : Nat) = 1 + 1 from rfl]
    rw [pMembers_trueM_cons]
    rw [setField_done_true]
    rw [show (1 : Nat) = 0 + 1 from rfl]
    rw [pMembers_space]
    rw [pMembers_strM_last]
    rw [setField_sid]
  rw [parseData]
  rw [encDone]
  rw [show (strL "true" ++ ',' :: ' ' ::
        (jstr (strL "session_id") ++ ':' :: ' ' :: (jstr sid ++ ['}'])) : Str)
      = 't' :: 'r' :: 'u' :: 'e' :: ',' :: ' ' ::
        (jstr (strL "session_id") ++ ':' :: ' ' :: (jstr sid ++ ['}'])) from rfl]
  rw [skipWs_cons_not _ _ (by decide)]
  simp only [if_pos rfl]
  rw [show skipWs (jstr (strL "done") ++ ':' :: ' ' :: ('t' :: 'r' :: 'u' :: 'e' :: ',' :: ' ' ::
        (jstr (strL "session_id") ++ ':' :: ' ' :: (jstr sid ++ ['}']))))
      = '"' :: (escape (strL "done") ++ '"' :: (':' :: ' ' :: ('t' :: 'r' :: 'u' :: 'e' :: ',' :: ' ' ::
        (jstr (strL "session_id") ++ ':' :: ' ' :: (jstr sid ++ ['}']))))) by
    rw [jstr_append]; exact skipWs_cons_not _ _ (by decide)]
  simp +decide only [if_true, if_false]
  exact pMembers_mono hbody (by simp only [List.length_cons]; omega)

theorem parseData_encError (msg : Str) :
    parseData (encError msg) = some { error := some msg } := by
  have hbody : pMembers 1 ({} : EventData)
      (jstr (strL "error") ++ ':' :: ' ' :: (jstr msg ++ ['}']))
      = some { error := some msg } := by
    rw [show (1 : Nat) = 0 + 1 from rfl]
    rw [pMembers_strM_last]
    rw [setField_error]
  rw [parseData]
  rw [encError]
  rw [skipWs_cons_not _ _ (by decide)]
  simp only [if_pos rfl]
  rw [show skipWs (jstr (strL "error") ++ ':' :: ' ' :: (jstr msg ++ ['}']))
      = '"' :: (escape (strL "error") ++ '"' :: (':' :: ' ' :: (jstr msg ++ ['}']))) by
    rw [jstr_append]; exact skipWs_cons_not _ _ (by decide)]
  simp +decide only [if_true, if_false]
  exact pMembers_mono hbody (by simp only [List.length_cons]; omega)

theorem escape_not_nl (s : Str) : '\n' ∉ escape s := by
  induction s with
  | nil => simp [escape]
  | cons c cs ih =>
    by_cases h1 : c = '\\'
    · subst h1; simp +decide [escape, ih]
    · by_cases h2 : c = '"'
      · subst h2; simp +decide [escape, ih]
      · by_cases h3 : c = '\n'
        · subst h3; simp +decide [escape, ih]
        · simp [escape, h1, h2, h3, ih]
          exact fun e => h3 e.symm

theorem jstr_not_nl (s : Str) : '\n' ∉ jstr s := by
  simp +decide [jstr, escape_not_nl s]

theorem lineBody_not_nl (e : Event) : '\n' ∉ lineBody e := by
  cases e with
  | chunk text sid =>
    simp +decide [lineBody, encChunk, dataPre, strL, jstr_not_nl]
  | done sid =>
    simp +decide [lineBody, encDone, dataPre, strL, jstr_not_nl]
  | error msg =>
    simp +decide [lineBody, encError, dataPre, strL, jstr_not_nl]

theorem dataPre_drop (x : Str) : (dataPre ++ x).drop 6 = x :=
  List.drop_left' rfl

theorem dataPre_isPrefixOf (x : Str) : dataPre.isPrefixOf (dataPre ++ x) = true :=
  List.isPrefixOf_iff_prefix.mpr ⟨x, rfl⟩

theorem processLine_nil (tgt : Nat) (st : LoopSt) : processLine tgt st [] = LineOut.cont st := by
  rw [processLine]
  rw [if_neg (by decide)]

theorem processLine_chunkLine (tgt : Nat) (st : LoopSt) (text sid : Str) :
    processLine tgt st (lineBody (Event.chunk text sid))
      = LineOut.cont (chunkStep tgt st text sid) := by
  rw [lineBody, processLine]
  rw [if_pos (dataPre_isPrefixOf _)]
  rw [dataPre_drop, parseData_encChunk]
  by_cases he : text.isEmpty
  · simp [truthyStr, truthyBool, chunkStep, he]
  · simp [truthyStr, truthyBool, chunkStep, he]

theorem processLine_doneLine (tgt : Nat) (st : LoopSt) (sid : Str) :
    processLine tgt st (lineBody (Event.done sid))
      = LineOut.brk { st with sessionId := some sid } := by
  rw [lineBody, processLine]
  rw [if_pos (dataPre_isPrefixOf _)]
  rw [dataPre_drop, parseData_encDone]
  simp [truthyStr, truthyBool]

theorem processLine_errorLine (tgt : Nat) (st : LoopSt) (msg : Str) :
    processLine tgt st (lineBody (Event.error msg))
      = if msg.isEmpty then LineOut.cont st else LineOut.thrown st := by
  rw [lineBody, processLine]
  rw [if_pos (dataPre_isPrefixOf _)]
  rw [dataPre_drop, parseData_encError]
  by_cases he : msg.isEmpty
  · simp [truthyStr, truthyBool, he]
  · simp [truthyStr, truthyBool, he]

theorem splitNl_append_line (l t : Str) (h : '\n' ∉ l) :
    splitNl (l ++ '\n' :: t) = l :: splitNl t := by
  induction l with
  | nil =>
    rw [List.nil_append, splitNl]
    rw [if_pos rfl]
  | cons c cs ih =>
    have hc : c ≠ '\n' := fun e => h (by simp [e])
    have h2 : '\n' ∉ cs := fun m => h (by simp [m])
    rw [List.cons_append, splitNl]
    rw [if_neg hc, ih h2]

theorem splitNl_readOf (g : List Event) :
    splitNl (readOf g) = g.map lineBody ++ [[]] := by
  induction g with
  | nil => rfl
  | cons e es ih =>
    have : readOf (e :: es) = lineBody e ++ '\n' :: readOf es := by
      simp [readOf, encEvent]
    rw [this, splitNl_append_line _ _ (lineBody_not_nl e), ih]
    rfl

theorem runReads_cons_ran (tgt : Nat) (st st2 : LoopSt) (r : Str) (rs : List Str)
    (h : processLines tgt st (splitNl r) = ForOut.ran st2) :
    runReads tgt st (r :: rs) = runReads tgt st2 rs := by
  rw [runReads, h]

theorem runReads_cons_broke (tgt : Nat) (st st2 : LoopSt) (r : Str) (rs : List Str)
    (h : processLines tgt st (splitNl r) = ForOut.broke st2) :
    runReads tgt st (r :: rs) = runReads tgt st2 rs := by
  rw [runReads, h]

theorem runReads_cons_thrown (tgt : Nat) (st st2 : LoopSt) (r : Str) (rs : List Str)
    (h : processLines tgt st (splitNl r) = ForOut.thrown st2) :
    runReads tgt st (r :: rs) = RunOut.thrown st2 := by
  rw [runReads, h]

theorem processLines_cons_cont (tgt : Nat) (st st2 : LoopSt) (l : Str) (ls : List Str)
    (h : processLine tgt st l = LineOut.cont st2) :
    processLines tgt st (l :: ls) = processLines tgt st2 ls := by
  rw [processLines, h]

theorem processLines_cons_brk (tgt : Nat) (st st2 : LoopSt) (l : Str) (ls : List Str)
    (h : processLine tgt st l = LineOut.brk st2) :
    processLines tgt st (l :: ls) = ForOut.broke st2 := by
  rw [processLines, h]

theorem processLines_cons_thrown (tgt : Nat) (st st2 : LoopSt) (l : Str) (ls : List Str)
    (h : processLine tgt st l = LineOut.thrown st2) :
    processLines tgt st (l :: ls) = ForOut.thrown st2 := by
  rw [processLines, h]

theorem processLines_nilLine (tgt : Nat) (st : LoopSt) :
    processLines tgt st [[]] = ForOut.ran st := by
  rw [processLines_cons_cont tgt st st [] [] (processLine_nil tgt st)]
  rfl

theorem processLines_chunkLines (tgt : Nat) (cs : List (Str × Str)) :
    ∀ st : LoopSt, processLines tgt st ((chunkEvs cs).map lineBody ++ [[]])
      = ForOut.ran (foldChunks tgt st cs) := by
  induction cs with
  | nil =>
    intro st
    exact processLines_nilLine tgt st
  | cons p ps ih =>
    intro st
    rw [show (chunkEvs (p :: ps)).map lineBody ++ [[]]
        = lineBody (Event.chunk p.1 p.2) :: ((chunkEvs ps).map lineBody ++ [[]]) by
      simp [chunkEvs]]
    rw [processLines_cons_cont _ _ _ _ _ (processLine_chunkLine tgt st p.1 p.2)]
    exact ih (chunkStep tgt st p.1 p.2)

theorem processLines_chunksThenDone (tgt : Nat) (cs : List (Str × Str)) (sid : Str) :
    ∀ (st : LoopSt) (rest : List Str),
      processLines tgt st ((chunkEvs cs ++ [Event.done sid]).map lineBody ++ rest)
        = ForOut.broke { foldChunks tgt st cs with sessionId := some sid } := by
  induction cs with
  | nil =>
    intro st rest
    rw [show (chunkEvs [] ++ [Event.done sid]).map lineBody ++ rest
        = lineBody (Event.done sid) :: rest by simp [chunkEvs]]
    exact processLines_cons_brk _ _ _ _ _ (processLine_doneLine tgt st sid)
  | cons p ps ih =>
    intro st rest
    rw [show (chunkEvs (p :: ps) ++ [Event.done sid]).map lineBody ++ rest
        = lineBody (Event.chunk p.1 p.2)
            :: ((chunkEvs ps ++ [Event.done sid]).map lineBody ++ rest) by
      simp [chunkEvs]]
    rw [processLines_cons_cont _ _ _ _ _ (processLine_chunkLine tgt st p.1 p.2)]
    exact ih (chunkStep tgt st p.1 p.2) rest

theorem runReads_nilGroups (tgt : Nat) :
    ∀ (gs : List (List Event)) (st : LoopSt), (∀ g ∈ gs, g = []) →
      runReads tgt st (gs.map readOf) = RunOut.finished st := by
  intro gs
  induction gs with
  | nil => intro st _; rfl
  | cons g gs ih =>
    intro st h
    have hg : g = [] := h g (List.mem_cons_self g gs)
    subst hg
    rw [List.map_cons]
    rw [runReads_cons_ran tgt st st _ _ (by
      rw [show readOf ([] : List Event) = [] from rfl]
      rw [show splitNl [] = [[]] from rfl]
      exact processLines_nilLine tgt st)]
    exact ih st fun g m => h g (List.mem_cons_of_mem _ m)

theorem foldChunks_append (tgt : Nat) (st : LoopSt) (cs1 cs2 : List (Str × Str)) :
    foldChunks tgt st (cs1 ++ cs2) = foldChunks tgt (foldChunks tgt st cs1) cs2 := by
  simp [foldChunks, List.foldl_append]

theorem runReads_groups (tgt : Nat) :
    ∀ (gs : List (List Event)) (st : LoopSt) (cs : List (Str × Str)) (sid : Str),
      gs.flatten = chunkEvs cs ++ [Event.done sid] →
      runReads tgt st (gs.map readOf)
        = RunOut.finished { foldChunks tgt st cs with sessionId := some sid } := by
  intro gs
  induction gs with
  | nil =>
    intro st cs sid h
    exfalso
    have := congrArg List.length h
    simp [chunkEvs] at this
  | cons g gs ih =>
    intro st cs sid h
    rw [List.flatten_cons] at h
    rcases List.append_eq_append_iff.mp h with ⟨a, ha1, ha2⟩ | ⟨c, hc1, hc2⟩
    · rw [chunkEvs] at ha1
      rcases List.map_eq_append_iff.mp ha1 with ⟨cs1, cs2, hcs, hg, hA⟩
      subst hcs
      rw [List.map_cons]
      rw [runReads_cons_ran tgt st (foldChunks tgt st cs1) _ _ (by
        rw [splitNl_readOf g, ← hg]
        exact processLines_chunkLines tgt cs1 st)]
      rw [ih (foldChunks tgt st cs1) cs2 sid (by rw [ha2, ← hA]; rfl)]
      rw [foldChunks_append]
    · cases c with
      | nil =>
        rw [List.append_nil] at hc1
        subst hc1
        rw [List.map_cons]
        rw [runReads_cons_ran tgt st (foldChunks tgt st cs) _ _ (by
          rw [splitNl_readOf]
          exact processLines_chunkLines tgt cs st)]
        rw [List.nil_append] at hc2
        rw [ih (foldChunks tgt st cs) [] sid (by rw [← hc2]; rfl)]
        rfl
      | cons e c2 =>
        have h2 : e :: (c2 ++ gs.flatten) = [Event.done sid] := by
          rw [← List.cons_append]
          exact hc2.symm
        injection h2 with h2a h2b
        obtain ⟨hc2nil, hgsnil⟩ := List.append_eq_nil.mp h2b
        subst h2a
        subst hc2nil
        subst hc1
        rw [List.map_cons]
        rw [runReads_cons_broke tgt st { foldChunks tgt st cs with sessionId := some sid } _ _ (by
          rw [splitNl_readOf]
          exact processLines_chunksThenDone tgt cs sid st _)]
        exact runReads_nilGroups tgt gs _ (List.flatten_eq_nil_iff.mp hgsnil)

theorem getElem?_updateContent (i j : Nat) (c : Str) (l : List Message) :
    (updateContent i c l)[j]?
      = l[j]?.map fun m => if j = i then { m with content := c } else m := by
  simp [updateContent, List.getElem?_mapIdx]

theorem initLoop_target (st : Store) :
    (initLoop st).messages[tgtIdx st]?
      = some { role := Role.assistant, content := (initLoop st).acc } := by
  show ((st.messages ++ [userMsg st]) ++ [{ role := Role.assistant, content := [] }]
    )[st.messages.length + 1]? = _
  rw [show st.messages.length + 1 = (st.messages ++ [userMsg st]).length by simp]
  rw [List.getElem?_concat_length]
  rfl

theorem foldChunks_invariant (tgt : Nat) (cs : List (Str × Str)) :
    ∀ (st : LoopSt) (r : Role),
      st.messages[tgt]? = some { role := r, content := st.acc } →
      (foldChunks tgt st cs).messages[tgt]?
          = some { role := r, content := (foldChunks tgt st cs).acc }
        ∧ (foldChunks tgt st cs).acc = st.acc ++ (cs.map Prod.fst).flatten := by
  induction cs with
  | nil =>
    intro st r h
    exact ⟨h, by simp [foldChunks]⟩
  | cons p ps ih =>
    intro st r h
    have hstep : (chunkStep tgt st p.1 p.2).messages[tgt]?
        = some { role := r, content := (chunkStep tgt st p.1 p.2).acc } := by
      by_cases he : p.1.isEmpty
      · simp [chunkStep, he, h]
      · simp [chunkStep, he, getElem?_updateContent, h]
    have hacc : (chunkStep tgt st p.1 p.2).acc = st.acc ++ p.1 := by
      by_cases he : p.1.isEmpty
      · simp [chunkStep, he, List.isEmpty_iff.mp he]
      · simp [chunkStep, he]
    have hfold : foldChunks tgt st (p :: ps) = foldChunks tgt (chunkStep tgt st p.1 p.2) ps := rfl
    obtain ⟨h1, h2⟩ := ih (chunkStep tgt st p.1 p.2) r hstep
    rw [hfold]
    refine ⟨h1, ?_⟩
    rw [h2, hacc]
    simp

theorem processLines_append_ran (tgt : Nat) :
    ∀ (pre rest : List Str) (st st1 : LoopSt),
      processLines tgt st pre = ForOut.ran st1 →
      processLines tgt st (pre ++ rest) = processLines tgt st1 rest := by
  intro pre
  induction pre with
  | nil =>
    intro rest st st1 h
    rw [processLines] at h
    injection h with h
    subst h
    rw [List.nil_append]
  | cons p ps ih =>
    intro rest st st1 h
    rw [List.cons_append]
    cases hp : processLine tgt st p with
    | cont stm =>
      rw [processLines_cons_cont _ _ _ _ _ hp] at h
      rw [processLines_cons_cont _ _ _ _ _ hp]
      exact ih rest stm st1 h
    | brk stm =>
      rw [processLines_cons_brk _ _ _ _ _ hp] at h
      cases h
    | thrown stm =>
      rw [processLines_cons_thrown _ _ _ _ _ hp] at h
      cases h

theorem runReadsPartial_append (tgt : Nat) :
    ∀ (rs1 : List Str) (st st1 : LoopSt) (rs2 : List Str),
      runReadsPartial tgt st rs1 = some st1 →
      runReads tgt st (rs1 ++ rs2) = runReads tgt st1 rs2 := by
  intro rs1
  induction rs1 with
  | nil =>
    intro st st1 rs2 h
    rw [runReadsPartial] at h
    injection h with h
    subst h
    rw [List.nil_append]
  | cons r rs ih =>
    intro st st1 rs2 h
    rw [List.cons_append]
    rw [runReadsPartial] at h
    cases hp : processLines tgt st (splitNl r) with
    | ran stm =>
      simp only [hp] at h
      rw [runReads_cons_ran _ _ _ _ _ hp]
      exact ih stm st1 rs2 h
    | broke stm =>
      simp only [hp] at h
      rw [runReads_cons_broke _ _ _ _ _ hp]
      exact ih stm st1 rs2 h
    | thrown stm =>
      simp only [hp] at h
      cases h

theorem updateContent_length (i : Nat) (c : Str) (l : List Message) :
    (updateContent i c l).length = l.length := by
  simp [updateContent]

theorem updateContent_role (i j : Nat) (c : Str) (l : List Message) :
    ((updateContent i c l)[j]?).map Message.role = (l[j]?).map Message.role := by
  rw [getElem?_updateContent]
  cases h : l[j]? with
  | none => simp
  | some m =>
    simp only [Option.map_some']
    by_cases hj : j = i
    · simp [hj]
    · simp [hj]

theorem processLine_role (tgt : Nat) (st : LoopSt) (l : Str) (j : Nat) :
    (((processLine tgt st l).toSt.messages)[j]?).map Message.role
      = ((st.messages)[j]?).map Message.role := by
  rw [processLine]
  by_cases hp : dataPre.isPrefixOf l
  · rw [if_pos hp]
    cases hd : parseData (l.drop 6) with
    | none => simp [hd, LineOut.toSt]
    | some d =>
      simp only [hd]
      by_cases he : truthyStr d.error
      · simp [he, LineOut.toSt]
      · by_cases hdn : truthyBool d.done
        · simp [he, hdn, LineOut.toSt]
        · by_cases hc : truthyStr d.chunk
          · simp [he, hdn, hc, LineOut.toSt, updateContent_role]
          · simp [he, hdn, hc, LineOut.toSt]
  · rw [if_neg hp]
    rfl

theorem processLines_role (tgt : Nat) :
    ∀ (ls : List Str) (st : LoopSt) (j : Nat),
      (((processLines tgt st ls).toSt.messages)[j]?).map Message.role
        = ((st.messages)[j]?).map Message.role := by
  intro ls
  induction ls with
  | nil => intro st j; rfl
  | cons p ps ih =>
    intro st j
    have hline := processLine_role tgt st p j
    cases hp : processLine tgt st p with
    | cont stm =>
      rw [hp] at hline
      rw [processLines_cons_cont _ _ _ _ _ hp]
      exact (ih stm j).trans hline
    | brk stm =>
      rw [hp] at hline
      rw [processLines_cons_brk _ _ _ _ _ hp]
      exact hline
    | thrown stm =>
      rw [hp] at hline
      rw [processLines_cons_thrown _ _ _ _ _ hp]
      exact hline

theorem runReadsPartial_role (tgt : Nat) :
    ∀ (rs : List Str) (st st1 : LoopSt) (j : Nat),
      runReadsPartial tgt st rs = some st1 →
      ((st1.messages)[j]?).map Message.role = ((st.messages)[j]?).map Message.role := by
  intro rs
  induction rs with
  | nil =>
    intro st st1 j h
    rw [runReadsPartial] at h
    injection h with h
    subst h
    rfl
  | cons r rs2 ih =>
    intro st st1 j h
    rw [runReadsPartial] at h
    have hlines := processLines_role tgt (splitNl r) st j
    cases hp : processLines tgt st (splitNl r) with
    | ran stm =>
      simp only [hp] at h hlines
      exact (ih stm st1 j h).trans hlines
    | broke stm =>
      simp only [hp] at h hlines
      exact (ih stm st1 j h).trans hlines
    | thrown stm =>
      simp only [hp] at h
      cases h

theorem updateContent_eq_set (i : Nat) (c : Str) (l : List Message) (h : i < l.length) :
    updateContent i c l = l.set i { l.get ⟨i, h⟩ with content := c } := by
  apply List.ext_getElem?
  intro j
  rw [getElem?_updateContent, List.getElem?_set]
  by_cases hj : i = j
  · subst hj
    rw [if_pos rfl, if_pos h]
    rw [List.getElem?_eq_getElem h]
    simp
  · rw [if_neg hj]
    cases hm : l[j]? with
    | none => rfl
    | some m => simp [Ne.symm hj]

theorem mutOk_updateContent (l : List Message) (i : Nat) (c : Str) (h : i < l.length) :
    MutOk l (updateContent i c l) :=
  Or.inr ⟨⟨i, h⟩, c, updateContent_eq_set i c l h⟩

theorem traceOk_snoc (ms0 : List Message) (tr : List (List Message))
    (ms ms2 : List Message)
    (hh : tr.head? = some ms0) (hl : tr.getLast? = some ms) (hc : List.Chain' MutOk tr)
    (hmut : MutOk ms ms2) :
    (tr ++ [ms2]).head? = some ms0 ∧ (tr ++ [ms2]).getLast? = some ms2 ∧
      List.Chain' MutOk (tr ++ [ms2]) := by
  refine ⟨?_, List.getLast?_concat tr, ?_⟩
  · rw [List.head?_append, hh]
    rfl
  · rw [List.chain'_append]
    refine ⟨hc, List.chain'_singleton _, ?_⟩
    intro x hx y hy
    rw [Option.mem_def] at hx hy
    rw [hl] at hx
    injection hx with hx
    subst hx
    rw [show ([ms2] : List (List Message)).head? = some ms2 from rfl] at hy
    injection hy with hy
    subst hy
    exact hmut

theorem processLine_traceOk (tgt : Nat) (ms0 : List Message) (st : LoopSt) (l : Str)
    (h : TraceOk tgt ms0 st) : TraceOk tgt ms0 (processLine tgt st l).toSt := by
  obtain ⟨hh, hl, hc, hb⟩ := h
  rw [processLine]
  by_cases hp : dataPre.isPrefixOf l
  · rw [if_pos hp]
    cases hd : parseData (l.drop 6) with
    | none =>
      simp only [hd]
      exact ⟨hh, hl, hc, hb⟩
    | some d =>
      simp only [hd]
      by_cases he : truthyStr d.error
      · simp only [he, if_true]
        exact ⟨hh, hl, hc, hb⟩
      · by_cases hdn : truthyBool d.done
        · simp only [he, hdn, if_false, if_true, Bool.false_eq_true]
          exact ⟨hh, hl, hc, hb⟩
        · by_cases hcn : truthyStr d.chunk
          · simp only [he, hdn, hcn, if_false, if_true, Bool.false_eq_true]
            obtain ⟨s1, s2, s3⟩ := traceOk_snoc ms0 st.trace st.messages
              (updateContent tgt (st.acc ++ d.chunk.getD []) st.messages) hh hl hc
              (mutOk_updateContent st.messages tgt _ hb)
            exact ⟨s1, s2, s3, by
              simp only [LineOut.toSt, updateContent_length]
              exact hb⟩
          · simp only [he, hdn, hcn, if_false, Bool.false_eq_true]
            exact ⟨hh, hl, hc, hb⟩
  · rw [if_neg hp]
    exact ⟨hh, hl, hc, hb⟩

theorem processLines_traceOk (tgt : Nat) (ms0 : List Message) :
    ∀ (ls : List Str) (st : LoopSt), TraceOk tgt ms0 st →
      TraceOk tgt ms0 (processLines tgt st ls).toSt := by
  intro ls
  induction ls with
  | nil => intro st h; exact h
  | cons p ps ih =>
    intro st h
    have hline := processLine_traceOk tgt ms0 st p h
    cases hp : processLine tgt st p with
    | cont stm =>
      rw [hp] at hline
      rw [processLines_cons_cont _ _ _ _ _ hp]
      exact ih stm hline
    | brk stm =>
      rw [hp] at hline
      rw [processLines_cons_brk _ _ _ _ _ hp]
      exact hline
    | thrown stm =>
      rw [hp] at hline
      rw [processLines_cons_thrown _ _ _ _ _ hp]
      exact hline

theorem runReads_traceOk (tgt : Nat) (ms0 : List Message) :
    ∀ (rs : List Str) (st : LoopSt), TraceOk tgt ms0 st →
      TraceOk tgt ms0 (runReads tgt st rs).toSt := by
  intro rs
  induction rs with
  | nil => intro st h; exact h
  | cons r rs2 ih =>
    intro st h
    have hlines := processLines_traceOk tgt ms0 (splitNl r) st h
    cases hp : processLines tgt st (splitNl r) with
    | ran stm =>
      rw [hp] at hlines
      rw [runReads_cons_ran _ _ _ _ _ hp]
      exact ih stm hlines
    | broke stm =>
      rw [hp] at hlines
      rw [runReads_cons_broke _ _ _ _ _ hp]
      exact ih stm hlines
    | thrown stm =>
      rw [hp] at hlines
      rw [runReads_cons_thrown _ _ _ _ _ hp]
      exact hlines

theorem initLoop_traceOk (st : Store) : TraceOk (tgtIdx st) st.messages (initLoop st) := by
  refine ⟨rfl, rfl, ?_, ?_⟩
  · refine List.chain'_cons.mpr ⟨Or.inl ⟨userMsg st, rfl⟩, ?_⟩
    refine List.chain'_cons.mpr ⟨Or.inl ⟨{ role := Role.assistant, content := [] }, rfl⟩, ?_⟩
    exact List.chain'_singleton _
  · show tgtIdx st < ((st.messages ++ [userMsg st]) ++ [_]).length
    simp [tgtIdx]

/-! ## Claims -/

/-- C5: when the busy flag is set, or the draft trims to empty, the
submit operation is a no-op: the store is returned unchanged, the
message list is never mutated (the ghost trace has a single entry) and
no network request is issued. -/
theorem C5_submit_noop (st : Store) (t : Transport)
    (h : st.isLoading = true ∨ jsTrim st.input = []) :
    sendMessageT st t = { store := st, msgTrace := [st.messages], requests := 0 } := by
  have hg : ((jsTrim st.input).isEmpty || st.isLoading) = true := by
    rcases h with h | h
    · simp [h]
    · simp [h]
  simp [sendMessageT, hg]

/-- Witness for C5: a busy store is returned unchanged with no request. -/
theorem C5_witness :
    sendMessageT { messages := [], input := strL "x", sessionId := none, isLoading := true }
        Transport.netfail
      = { store := { messages := [], input := strL "x", sessionId := none, isLoading := true },
          msgTrace := [[]], requests := 0 } :=
  C5_submit_noop _ _ (Or.inl rfl)

/-- C4: for every exchange that starts (valid draft, not busy), the busy
flag is false after `sendMessage` returns, on every outcome path (any
transport value, hence done seen, channel exhausted, transport or HTTP
failure, malformed line, or error increment). -/
theorem C4_busy_always_cleared (st : Store) (t : Transport)
    (hdraft : (jsTrim st.input).isEmpty = false) (hbusy : st.isLoading = false) :
    (sendMessage st t).isLoading = false := by
  unfold sendMessage sendMessageT
  simp only [hdraft, hbusy, Bool.or_self]
  cases t with
  | netfail => simp
  | resp ok body =>
    cases ok with
    | false => simp
    | true =>
      cases body with
      | none => simp
      | some reads =>
        simp only [Bool.false_eq_true, if_false, if_true]
        split <;> simp

/-- Witness for C4: a concrete started exchange that fails in transport
ends with the busy flag cleared. -/
theorem C4_witness : (sendMessage demoStore Transport.netfail).isLoading = false :=
  C4_busy_always_cleared demoStore Transport.netfail (by decide) (by decide)

/-- C1 counterexample: the byte stream of one chunk (`hello`) followed
by `done`, split across two reads in the middle of the chunk line, is a
valid split of the encoded bytes, yet the exchange ends with the target
message equal to the apology string, not the chunk concatenation: the
consumer has no rolling buffer, so the partial line fails `JSON.parse`
and the exchange aborts. -/
theorem C1_split_counterexample :
    (readOf [Event.chunk (strL "hello") (strL "s"), Event.done (strL "s")]).take 12
        ++ (readOf [Event.chunk (strL "hello") (strL "s"), Event.done (strL "s")]).drop 12
      = readOf [Event.chunk (strL "hello") (strL "s"), Event.done (strL "s")] ∧
    (sendMessage demoStore (Transport.resp true (some
        [(readOf [Event.chunk (strL "hello") (strL "s"), Event.done (strL "s")]).take 12,
         (readOf [Event.chunk (strL "hello") (strL "s"), Event.done (strL "s")]).drop 12]))
      ).messages[1]? = some { role := Role.assistant, content := apology } ∧
    apology ≠ strL "hello" := by decide

/-- C2 counterexample: a `done` increment in the first read is followed
by a chunk increment in a second read.  At the moment `done` was
processed the accumulated content was empty and the session identifier
was `B`; after the exchange the target message contains `x` and the
stored identifier is `A`: `break` only exits the per-read line loop, so
later reads are still processed. -/
theorem C2_after_done_counterexample :
    (processLines 1 (initLoop demoStore) (splitNl (readOf [Event.done (strL "B")]))).toSt.acc
      = [] ∧
    (processLines 1 (initLoop demoStore)
        (splitNl (readOf [Event.done (strL "B")]))).toSt.sessionId = some (strL "B") ∧
    (sendMessage demoStore (Transport.resp true (some
        [readOf [Event.done (strL "B")], readOf [Event.chunk (strL "x") (strL "A")]]))
      ).messages[1]? = some { role := Role.assistant, content := strL "x" } ∧
    (sendMessage demoStore (Transport.resp true (some
        [readOf [Event.done (strL "B")], readOf [Event.chunk (strL "x") (strL "A")]]))
      ).sessionId = some (strL "A") ∧
    strL "x" ≠ ([] : Str) ∧ some (strL "A") ≠ some (strL "B") := by decide

/-- C3 counterexample: an error increment positioned after a `done`
increment in the same read is never dispatched, so the exchange ends
with the accumulated chunk text, not the apology string. -/
theorem C3_error_position_counterexample :
    (sendMessage demoStore (Transport.resp true (some
        [readOf [Event.chunk (strL "hi") (strL "s"), Event.done (strL "s"),
                 Event.error (strL "boom")]]))
      ).messages[1]? = some { role := Role.assistant, content := strL "hi" } ∧
    strL "hi" ≠ apology := by decide

/-- C6 counterexample: a chunk increment carries session id `A`, then a
`done` increment carries no `session_id` member at all; the consumer
stores `data.session_id` unconditionally, so the exchange ends with the
identifier unset rather than `A` (the last value actually specified). -/
theorem C6_session_counterexample :
    parseData (strL "\x7b\"done\": true\x7d") = some { done := some true } ∧
    (sendMessage demoStore (Transport.resp true (some
        [readOf [Event.chunk (strL "a") (strL "A")]
          ++ (dataPre ++ strL "\x7b\"done\": true\x7d" ++ ['\n'])]))
      ).sessionId = none ∧
    (none : Option Str) ≠ some (strL "A") := by decide

/-- C1 (amended): for every stream of chunk events with texts `c1..cn`
followed by a `done` event, and for every way the encoded bytes are
split across successive reads AT LINE BOUNDARIES (each read carries a
whole number of framed lines), the exchange ends with the target
assistant message content equal to the concatenation `c1++...++cn`.
The original claim also allowed a JSON line to be split across two
reads; `C1_split_counterexample` refutes that: the consumer re-splits
each read independently and has no rolling buffer. -/
theorem C1_line_aligned_reassembly (st : Store) (cs : List (Str × Str)) (sid : Str)
    (gs : List (List Event))
    (hdraft : (jsTrim st.input).isEmpty = false) (hbusy : st.isLoading = false)
    (hg : gs.flatten = chunkEvs cs ++ [Event.done sid]) :
    (sendMessage st (Transport.resp true (some (gs.map readOf)))).messages[tgtIdx st]?
      = some { role := Role.assistant, content := (cs.map Prod.fst).flatten } := by
  obtain ⟨h1, h2⟩ := foldChunks_invariant (tgtIdx st) cs (initLoop st) Role.assistant
    (initLoop_target st)
  unfold sendMessage sendMessageT
  simp only [hdraft, hbusy, Bool.or_self, Bool.false_eq_true, if_false,
    runReads_groups (tgtIdx st) gs (initLoop st) cs sid hg, if_true]
  rw [h1, h2]
  simp [initLoop]

/-- Witness for C1: two chunk reads split at a line boundary yield the
concatenated text `Hello`. -/
theorem C1_reassembly_witness :
    (sendMessage demoStore (Transport.resp true (some
        ([[Event.chunk (strL "He") (strL "s1")],
          [Event.chunk (strL "llo") (strL "s2"), Event.done (strL "z")]].map readOf)))
      ).messages[tgtIdx demoStore]?
      = some { role := Role.assistant,
               content := ([(strL "He", strL "s1"), (strL "llo", strL "s2")].map
                 Prod.fst).flatten } :=
  C1_line_aligned_reassembly demoStore [(strL "He", strL "s1"), (strL "llo", strL "s2")]
    (strL "z")
    [[Event.chunk (strL "He") (strL "s1")],
     [Event.chunk (strL "llo") (strL "s2"), Event.done (strL "z")]]
    (by decide) (by decide) (by decide)

/-- C2 (amended): once a `done` increment is dispatched, no further line
OF THE SAME READ is processed: the outcome of the per-read line loop is
fixed at the `done` line, whatever lines follow it in that read.  The
original claim extended this to lines of later reads;
`C2_after_done_counterexample` refutes that extension, since `break`
only leaves the inner for-loop and the while-loop keeps reading. -/
theorem C2_done_stops_current_read (tgt : Nat) (st st1 st2 : LoopSt)
    (pre rest : List Str) (l : Str)
    (hpre : processLines tgt st pre = ForOut.ran st1)
    (hdone : processLine tgt st1 l = LineOut.brk st2) :
    processLines tgt st (pre ++ l :: rest) = ForOut.broke st2 := by
  rw [processLines_append_ran tgt pre (l :: rest) st st1 hpre]
  exact processLines_cons_brk _ _ _ _ _ hdone

/-- Witness for C2: a chunk line after a `done` line in the same read is
not processed. -/
theorem C2_done_witness :
    processLines 1 (initLoop demoStore)
        ([] ++ lineBody (Event.done (strL "B"))
          :: [lineBody (Event.chunk (strL "x") (strL "A"))])
      = ForOut.broke { initLoop demoStore with sessionId := some (strL "B") } :=
  C2_done_stops_current_read 1 (initLoop demoStore) (initLoop demoStore)
    { initLoop demoStore with sessionId := some (strL "B") } [] _ _ rfl (by decide)

/-- C3 (amended): an error increment with a truthy (nonempty) message
ends the exchange with the target assistant message equal to the fixed
apology string — and hence not equal to the partially accumulated text
whenever that text differs from the apology — provided no `done`
increment precedes the error line WITHIN THE SAME READ.  The original
claim held for every position; `C3_error_position_counterexample`
refutes it for an error line shadowed by an earlier `done` in its read. -/
theorem C3_error_apology (st : Store) (rsPre : List Str) (r : Str) (rsPost : List Str)
    (pre post : List Str) (l : Str) (st1 st2 : LoopSt)
    (hdraft : (jsTrim st.input).isEmpty = false) (hbusy : st.isLoading = false)
    (hpart : runReadsPartial (tgtIdx st) (initLoop st) rsPre = some st1)
    (hsplit : splitNl r = pre ++ l :: post)
    (hpre : processLines (tgtIdx st) st1 pre = ForOut.ran st2)
    (hthrow : processLine (tgtIdx st) st2 l = LineOut.thrown st2) :
    (sendMessage st (Transport.resp true (some (rsPre ++ r :: rsPost)))
        ).messages[tgtIdx st]?
      = some { role := Role.assistant, content := apology } ∧
    (st2.acc ≠ apology →
      (sendMessage st (Transport.resp true (some (rsPre ++ r :: rsPost)))
          ).messages[tgtIdx st]?
        ≠ some { role := Role.assistant, content := st2.acc }) := by
  have hrole : ((st2.messages)[tgtIdx st]?).map Message.role = some Role.assistant := by
    have h0 : (((initLoop st).messages)[tgtIdx st]?).map Message.role
        = some Role.assistant := by
      rw [initLoop_target st]
      rfl
    have h1 := runReadsPartial_role (tgtIdx st) rsPre (initLoop st) st1 (tgtIdx st) hpart
    have h2 := processLines_role (tgtIdx st) pre st1 (tgtIdx st)
    rw [hpre] at h2
    simp only [ForOut.toSt] at h2
    rw [h2, h1, h0]
  obtain ⟨m, hm, hmrole⟩ :
      ∃ m, (st2.messages)[tgtIdx st]? = some m ∧ m.role = Role.assistant := by
    cases hmm : (st2.messages)[tgtIdx st]? with
    | none => rw [hmm] at hrole; cases hrole
    | some m =>
      rw [hmm] at hrole
      injection hrole with hrole
      exact ⟨m, rfl, hrole⟩
  have hrun : runReads (tgtIdx st) (initLoop st) (rsPre ++ r :: rsPost)
      = RunOut.thrown st2 := by
    rw [runReadsPartial_append (tgtIdx st) rsPre (initLoop st) st1 _ hpart]
    refine runReads_cons_thrown _ _ _ _ _ ?_
    rw [hsplit]
    rw [processLines_append_ran (tgtIdx st) pre (l :: post) st1 st2 hpre]
    exact processLines_cons_thrown _ _ _ _ _ hthrow
  have hmain : (sendMessage st (Transport.resp true (some (rsPre ++ r :: rsPost)))
      ).messages[tgtIdx st]? = some { role := Role.assistant, content := apology } := by
    unfold sendMessage sendMessageT
    simp only [hdraft, hbusy, Bool.or_self, Bool.false_eq_true, if_false, hrun, if_true]
    rw [getElem?_updateContent, hm]
    cases m with
    | mk mr mc =>
      cases hmrole
      simp
  refine ⟨hmain, fun hne heq => ?_⟩
  rw [hmain] at heq
  injection heq with heq
  exact hne ((congrArg Message.content heq).symm)

/-- Witness for C3: a single error increment produces the apology. -/
theorem C3_error_witness :
    (sendMessage demoStore (Transport.resp true
        (some ([] ++ readOf [Event.error (strL "boom")] :: [])))
      ).messages[tgtIdx demoStore]?
      = some { role := Role.assistant, content := apology } :=
  (C3_error_apology demoStore [] (readOf [Event.error (strL "boom")]) [] []
    [[]] (lineBody (Event.error (strL "boom"))) (initLoop demoStore) (initLoop demoStore)
    (by decide) (by decide) rfl (by decide) rfl (by decide)).1

/-- C6 (amended): each dispatched chunk or done increment overwrites the
stored session identifier with its own `session_id` field — including
overwriting it with the unset value when the increment carries no
`session_id`; error and no-op increments leave it unchanged
(`sidAfter`).  The original claim said the store always ends at the last
value actually SPECIFIED; `C6_session_counterexample` refutes that for a
`done` increment without a `session_id` member. -/
theorem C6_session_last_write (tgt : Nat) (st : LoopSt) (l : Str) (d : EventData)
    (hp : dataPre.isPrefixOf l = true) (hd : parseData (l.drop 6) = some d) :
    ((processLine tgt st l).toSt).sessionId = sidAfter st.sessionId d := by
  rw [processLine, if_pos hp]
  simp only [hd]
  rw [sidAfter]
  by_cases he : truthyStr d.error
  · simp [he, LineOut.toSt]
  · by_cases hdn : truthyBool d.done
    · simp [he, hdn, LineOut.toSt]
    · by_cases hc : truthyStr d.chunk
      · simp [he, hdn, hc, LineOut.toSt]
      · simp [he, hdn, hc, LineOut.toSt]

/-- Witness for C6: a done-carried `B` overwrites a chunk-carried `A`. -/
theorem C6_session_witness :
    ((processLine 1 { initLoop demoStore with sessionId := some (strL "A") }
        (lineBody (Event.done (strL "B")))).toSt).sessionId
      = sidAfter (some (strL "A"))
          { done := some true, session_id := some (strL "B") } :=
  C6_session_last_write 1 { initLoop demoStore with sessionId := some (strL "A") }
    (lineBody (Event.done (strL "B")))
    { done := some true, session_id := some (strL "B") } (by decide) (by decide)

/-- C7: over the whole exchange, the message list only ever changes by
appending one message at the end or by replacing the content of exactly
one existing message (`MutOk` — a `List.set` that keeps the old role, so
no deletion, no reordering, and every other entry untouched): the ghost
trace of message-list values starts at the pre-exchange list, ends at
the post-exchange list, and every adjacent pair is related by `MutOk`. -/
theorem C7_mutations_append_or_update (st : Store) (t : Transport) :
    ((sendMessageT st t).msgTrace).head? = some st.messages ∧
    ((sendMessageT st t).msgTrace).getLast? = some (sendMessage st t).messages ∧
    List.Chain' MutOk ((sendMessageT st t).msgTrace) := by
  by_cases hg : ((jsTrim st.input).isEmpty || st.isLoading) = true
  · unfold sendMessage sendMessageT
    simp only [hg, if_true]
    exact ⟨rfl, rfl, List.chain'_singleton _⟩
  · have h0 := initLoop_traceOk st
    have hfail : ∀ lo : LoopSt, TraceOk (tgtIdx st) st.messages lo →
        (lo.trace ++ [updateContent (tgtIdx st) apology lo.messages]).head?
            = some st.messages ∧
        (lo.trace ++ [updateContent (tgtIdx st) apology lo.messages]).getLast?
            = some (updateContent (tgtIdx st) apology lo.messages) ∧
        List.Chain' MutOk
          (lo.trace ++ [updateContent (tgtIdx st) apology lo.messages]) := by
      intro lo hlo
      obtain ⟨hh, hl, hc, hb⟩ := hlo
      exact traceOk_snoc st.messages lo.trace lo.messages _ hh hl hc
        (mutOk_updateContent lo.messages (tgtIdx st) apology hb)
    unfold sendMessage sendMessageT
    simp only [hg, if_false, Bool.not_eq_true]
    cases t with
    | netfail =>
      exact hfail (initLoop st) h0
    | resp ok body =>
      cases ok with
      | false =>
        simp only [Bool.false_eq_true, if_false]
        exact hfail (initLoop st) h0
      | true =>
        simp only [if_true]
        cases body with
        | none => exact hfail (initLoop st) h0
        | some reads =>
          have hr := runReads_traceOk (tgtIdx st) st.messages reads (initLoop st) h0
          cases hrun : runReads (tgtIdx st) (initLoop st) reads with
          | finished lo =>
            rw [hrun] at hr
            simp only [RunOut.toSt] at hr
            simp only [hrun]
            exact ⟨hr.1, hr.2.1, hr.2.2.1⟩
          | thrown lo =>
            rw [hrun] at hr
            simp only [RunOut.toSt] at hr
            simp only [hrun]
            exact hfail lo hr

/-- C8: on each failure path — rejected fetch, non-ok response, missing
body, or a decode-loop throw (malformed line or truthy error increment)
— the exchange ends with the session identifier exactly as it stood at
the moment of failure: failure handling writes only the target content
and the busy flag. -/
theorem C8_failure_preserves_session (st : Store)
    (hdraft : (jsTrim st.input).isEmpty = false) (hbusy : st.isLoading = false) :
    (sendMessage st Transport.netfail).sessionId = st.sessionId ∧
    (∀ body, (sendMessage st (Transport.resp false body)).sessionId = st.sessionId) ∧
    (sendMessage st (Transport.resp true none)).sessionId = st.sessionId ∧
    (∀ (reads : List Str) (lo : LoopSt),
      runReads (tgtIdx st) (initLoop st) reads = RunOut.thrown lo →
      sendMessage st (Transport.resp true (some reads))
        = { messages := updateContent (tgtIdx st) apology lo.messages, input := [],
            sessionId := lo.sessionId, isLoading := false }) := by
  refine ⟨?_, ?_, ?_, ?_⟩
  · unfold sendMessage sendMessageT
    simp [hdraft, hbusy, initLoop]
  · intro body
    unfold sendMessage sendMessageT
    simp [hdraft, hbusy, initLoop]
  · unfold sendMessage sendMessageT
    simp [hdraft, hbusy, initLoop]
  · intro reads lo h
    unfold sendMessage sendMessageT
    simp only [hdraft, hbusy, Bool.or_self, Bool.false_eq_true, if_false, h, if_true]

/-- Witness for C8: an error increment aborts the exchange leaving the
(unset) pre-failure identifier in place. -/
theorem C8_failure_witness :
    sendMessage demoStore (Transport.resp true
        (some [readOf [Event.error (strL "boom")]]))
      = { messages := updateContent (tgtIdx demoStore) apology
            (initLoop demoStore).messages,
          input := [], sessionId := (initLoop demoStore).sessionId,
          isLoading := false } :=
  (C8_failure_preserves_session demoStore (by decide) (by decide)).2.2.2
    [readOf [Event.error (strL "boom")]] (initLoop demoStore) (by decide)

/-- C9: a line without the `data: ` tag is skipped, and a parsed
increment with falsy `error`, `done` and `chunk` fields is a
forward-compatible no-op: in both cases the loop state (messages,
accumulator, session identifier) is returned unchanged and the line
loop continues with the remaining lines. -/
theorem C9_skip_lines_noop (tgt : Nat) (st : LoopSt) (l : Str) (ls : List Str) :
    (dataPre.isPrefixOf l = false →
      processLine tgt st l = LineOut.cont st ∧
        processLines tgt st (l :: ls) = processLines tgt st ls) ∧
    ∀ d : EventData, dataPre.isPrefixOf l = true → parseData (l.drop 6) = some d →
      truthyStr d.error = false → truthyBool d.done = false → truthyStr d.chunk = false →
      processLine tgt st l = LineOut.cont st ∧
        processLines tgt st (l :: ls) = processLines tgt st ls := by
  constructor
  · intro hp
    have h1 : processLine tgt st l = LineOut.cont st := by
      rw [processLine]
      rw [if_neg (by simp [hp])]
    exact ⟨h1, processLines_cons_cont _ _ _ _ _ h1⟩
  · intro d hp hd he hdn hc
    have h1 : processLine tgt st l = LineOut.cont st := by
      rw [processLine, if_pos hp]
      simp only [hd, he, hdn, hc, Bool.false_eq_true, if_false]
    exact ⟨h1, processLines_cons_cont _ _ _ _ _ h1⟩

/-- Witness for C9: an untagged line and a tagged increment carrying
only a `session_id` are both no-ops. -/
theorem C9_skip_witness :
    processLine 1 (initLoop demoStore) (strL "event: x")
        = LineOut.cont (initLoop demoStore) ∧
    processLine 1 (initLoop demoStore) (strL "data: \x7b\"session_id\": \"Z\"\x7d")
        = LineOut.cont (initLoop demoStore) :=
  ⟨((C9_skip_lines_noop 1 (initLoop demoStore) (strL "event: x") []).1 (by decide)).1,
   ((C9_skip_lines_noop 1 (initLoop demoStore)
        (strL "data: \x7b\"session_id\": \"Z\"\x7d") []).2
      { session_id := some (strL "Z") }
      (by decide) (by decide) (by decide) (by decide) (by decide)).1⟩

/-- C10: increment dispatch tests JS truthiness, not presence: an
empty-string chunk (even with a session identifier attached), an
empty-string error, and a false done flag are all complete no-ops — the
loop state is returned unchanged, no session identifier is recorded, and
nothing aborts. -/
theorem C10_falsy_noop (tgt : Nat) (st : LoopSt) (sid : Str) :
    processLine tgt st (dataPre ++ encChunk [] sid) = LineOut.cont st ∧
    processLine tgt st (dataPre ++ encError []) = LineOut.cont st ∧
    processLine tgt st (strL "data: \x7b\"done\": false\x7d") = LineOut.cont st := by
  refine ⟨?_, ?_, ?_⟩
  · rw [show dataPre ++ encChunk [] sid = lineBody (Event.chunk [] sid) from rfl]
    rw [processLine_chunkLine]
    simp [chunkStep]
  · rw [show dataPre ++ encError [] = lineBody (Event.error []) from rfl]
    rw [processLine_errorLine]
    simp
  · rw [processLine]
    rw [if_pos (by decide)]
    rw [show parseData ((strL "data: \x7b\"done\": false\x7d").drop 6)
        = some { done := some false } from by decide]
    simp [truthyStr, truthyBool]

end TripPlanner
